import Mathlib

/-!
Verification of the e-Stat analysis dashboard's aggregation core.

The definitions below are a shallow embedding of the date-window
resolution, row filtering, grouping/aggregation and load-time
normalization logic shared by `app/全体概要.py`,
`app/pages/分野別分析.py` and `app/pages/統計シリーズ概要.py`.
Dates are modelled as proleptic-Gregorian (year, month, day) triples;
chronological comparison of valid dates is performed through the
strictly monotone linearization `Date.key`.
-/

/-- A calendar date, as handled by `datetime.date` in the pages. -/
structure Date where
  year : Int
  month : Nat
  day : Nat
deriving DecidableEq

/-- Gregorian leap-year rule used by `datetime` / `dateutil`. -/
def isLeap (y : Int) : Bool :=
  (Int.emod y 4 == 0 && !(Int.emod y 100 == 0)) || Int.emod y 400 == 0

/-- Number of days of month `m` of year `y` (months outside 1..12 are
irrelevant; they default to 31). -/
def daysInMonth (y : Int) (m : Nat) : Nat :=
  if m == 2 then (if isLeap y then 29 else 28)
  else if m == 4 || m == 6 || m == 9 || m == 11 then 30
  else 31

/-- Linearization of a date. For valid dates (day ≤ 31, month ≤ 12) it is
strictly monotone with respect to chronological order, so `key a ≤ key b`
models the `date` comparison the pages perform. -/
def Date.key (d : Date) : Int :=
  d.year * 372 + (d.month : Int) * 31 + (d.day : Int)

/-- The date is an actual calendar date. -/
def Date.Valid (d : Date) : Prop :=
  1 ≤ d.month ∧ d.month ≤ 12 ∧ 1 ≤ d.day ∧ d.day ≤ daysInMonth d.year d.month

theorem daysInMonth_le31 (y : Int) (m : Nat) : daysInMonth y m ≤ 31 := by
  unfold daysInMonth
  split
  · split <;> omega
  · split <;> omega

theorem daysInMonth_pos (y : Int) (m : Nat) : 1 ≤ daysInMonth y m := by
  unfold daysInMonth
  split
  · split <;> omega
  · split <;> omega

theorem daysInMonth_twelve (y : Int) : daysInMonth y 12 = 31 := rfl

/-- The calendar day immediately before `d`. -/
def prevDay (d : Date) : Date :=
  if 1 < d.day then { d with day := d.day - 1 }
  else if 1 < d.month then
    { year := d.year, month := d.month - 1, day := daysInMonth d.year (d.month - 1) }
  else { year := d.year - 1, month := 12, day := 31 }

/-- `d - timedelta(days := n)`, as in the 過去1週間 branch. -/
def subDays : Nat → Date → Date
  | 0, d => d
  | n + 1, d => subDays n (prevDay d)

/-- `d - relativedelta(months := n)` (also `years := k` via `n = 12 * k`):
move the month index back by `n` and clamp the day to the length of the
target month, exactly as `dateutil.relativedelta` does. -/
def subMonths (n : Nat) (d : Date) : Date :=
  { year := Int.ediv (d.year * 12 + (d.month : Int) - 1 - (n : Int)) 12
    month := (Int.emod (d.year * 12 + (d.month : Int) - 1 - (n : Int)) 12).toNat + 1
    day := min d.day
      (daysInMonth (Int.ediv (d.year * 12 + (d.month : Int) - 1 - (n : Int)) 12)
        ((Int.emod (d.year * 12 + (d.month : Int) - 1 - (n : Int)) 12).toNat + 1)) }

instance (d : Date) : Decidable d.Valid :=
  inferInstanceAs
    (Decidable (1 ≤ d.month ∧ d.month ≤ 12 ∧ 1 ≤ d.day ∧ d.day ≤ daysInMonth d.year d.month))

theorem prevDay_valid_key (d : Date) (h : d.Valid) :
    (prevDay d).Valid ∧ (prevDay d).key ≤ d.key := by
  obtain ⟨h1, h2, h3, h4⟩ := h
  have h31 := daysInMonth_le31 d.year (d.month - 1)
  have hp := daysInMonth_pos d.year (d.month - 1)
  have h12 := daysInMonth_twelve (d.year - 1)
  unfold prevDay
  split
  · exact ⟨⟨h1, h2, by dsimp only; omega, by dsimp only; omega⟩,
      by dsimp only [Date.key]; omega⟩
  · split
    · exact ⟨⟨by dsimp only; omega, by dsimp only; omega, by dsimp only; omega,
        by dsimp only; omega⟩, by dsimp only [Date.key]; omega⟩
    · exact ⟨⟨by dsimp only; omega, by dsimp only; omega, by dsimp only; omega,
        by dsimp only; omega⟩, by dsimp only [Date.key]; omega⟩

theorem subDays_valid_key (n : Nat) : ∀ d : Date, d.Valid →
    (subDays n d).Valid ∧ (subDays n d).key ≤ d.key := by
  induction n with
  | zero => exact fun d h => ⟨h, le_refl _⟩
  | succ k ih =>
    intro d h
    have hp := prevDay_valid_key d h
    have hk := ih (prevDay d) hp.1
    simp only [subDays]
    exact ⟨hk.1, le_trans hk.2 hp.2⟩

theorem subMonths_key_le (n : Nat) (hn : 1 ≤ n) (d : Date) (h : d.Valid) :
    (subMonths n d).key ≤ d.key := by
  obtain ⟨h1, h2, h3, h4⟩ := h
  have e1 : 12 * Int.ediv (d.year * 12 + (d.month : Int) - 1 - (n : Int)) 12
      + Int.emod (d.year * 12 + (d.month : Int) - 1 - (n : Int)) 12
      = d.year * 12 + (d.month : Int) - 1 - (n : Int) :=
    Int.ediv_add_emod _ 12
  have e2 : 0 ≤ Int.emod (d.year * 12 + (d.month : Int) - 1 - (n : Int)) 12 :=
    Int.emod_nonneg _ (by norm_num)
  have e3 : Int.emod (d.year * 12 + (d.month : Int) - 1 - (n : Int)) 12 < 12 :=
    Int.emod_lt_of_pos _ (by norm_num)
  have e4 : min d.day
      (daysInMonth (Int.ediv (d.year * 12 + (d.month : Int) - 1 - (n : Int)) 12)
        ((Int.emod (d.year * 12 + (d.month : Int) - 1 - (n : Int)) 12).toNat + 1)) ≤ 31 :=
    le_trans (Nat.min_le_right _ _) (daysInMonth_le31 _ _)
  simp only [subMonths, Date.key]
  omega

/-- The eight options of the 期間の選択 radio button. The custom option
carries the value returned by the `st.date_input` widget, which may
transiently hold fewer (or more) than two dates. -/
inductive Selector where
  | pastWeek
  | pastMonth
  | pastYear
  | past2Years
  | past3Years
  | past5Years
  | allTime
  | custom (pair : List Date)
deriving DecidableEq

/-- Outcome of resolving a selector: the window bounds plus whether the
page reported an input error (`st.sidebar.error`). -/
structure Resolved where
  start : Date
  stop : Date
  warned : Bool
deriving DecidableEq

/-- The date-window resolution `if/elif` chain of `全体概要.py` lines
48-80 (duplicated in `分野別分析.py` lines 56-88). -/
def resolveWindow (sel : Selector) (minD maxD : Date) : Resolved :=
  match sel with
  | .pastWeek => ⟨subDays 7 maxD, maxD, false⟩
  | .pastMonth => ⟨subMonths 1 maxD, maxD, false⟩
  | .pastYear => ⟨subMonths 12 maxD, maxD, false⟩
  | .past2Years => ⟨subMonths 24 maxD, maxD, false⟩
  | .past3Years => ⟨subMonths 36 maxD, maxD, false⟩
  | .past5Years => ⟨subMonths 60 maxD, maxD, false⟩
  | .allTime => ⟨minD, maxD, false⟩
  | .custom pair =>
    match pair with
    | [a, b] => ⟨a, b, false⟩
    | _ => ⟨minD, maxD, true⟩

/-- C3 counterexample: with a one-day dataset (min = max = 2024-03-15) the
past-week selector resolves to a start date strictly before `min_date`,
so the claimed invariant `start_date ≥ min_date` fails on the code. -/
theorem pastWeek_start_below_min :
    (resolveWindow Selector.pastWeek ⟨2024, 3, 15⟩ ⟨2024, 3, 15⟩).start.key
      < (⟨2024, 3, 15⟩ : Date).key := by decide

/-- C3 (amended): for every dataset and selector the resolved window
satisfies `start ≤ end ≤ max_date`; the lower bound `start ≥ min_date`
holds for the all-time and custom selectors (the custom widget clamps its
values to `[min_date, max_date]`), but the relative selectors subtract
from `max_date` without clamping, so their start may precede `min_date`. -/
theorem resolveWindow_bounds (sel : Selector) (minD maxD : Date)
    (hv : maxD.Valid) (hle : minD.key ≤ maxD.key)
    (hc : ∀ a b : Date, sel = Selector.custom [a, b] →
      minD.key ≤ a.key ∧ a.key ≤ b.key ∧ b.key ≤ maxD.key) :
    (resolveWindow sel minD maxD).start.key ≤ (resolveWindow sel minD maxD).stop.key ∧
    (resolveWindow sel minD maxD).stop.key ≤ maxD.key ∧
    ((sel = Selector.allTime ∨ ∃ pair, sel = Selector.custom pair) →
      minD.key ≤ (resolveWindow sel minD maxD).start.key) := by
  cases sel with
  | pastWeek =>
    dsimp only [resolveWindow]
    exact ⟨(subDays_valid_key 7 maxD hv).2, le_refl _,
      by rintro (h | ⟨pair, h⟩) <;> exact Selector.noConfusion h⟩
  | pastMonth =>
    dsimp only [resolveWindow]
    exact ⟨subMonths_key_le 1 (by omega) maxD hv, le_refl _,
      by rintro (h | ⟨pair, h⟩) <;> exact Selector.noConfusion h⟩
  | pastYear =>
    dsimp only [resolveWindow]
    exact ⟨subMonths_key_le 12 (by omega) maxD hv, le_refl _,
      by rintro (h | ⟨pair, h⟩) <;> exact Selector.noConfusion h⟩
  | past2Years =>
    dsimp only [resolveWindow]
    exact ⟨subMonths_key_le 24 (by omega) maxD hv, le_refl _,
      by rintro (h | ⟨pair, h⟩) <;> exact Selector.noConfusion h⟩
  | past3Years =>
    dsimp only [resolveWindow]
    exact ⟨subMonths_key_le 36 (by omega) maxD hv, le_refl _,
      by rintro (h | ⟨pair, h⟩) <;> exact Selector.noConfusion h⟩
  | past5Years =>
    dsimp only [resolveWindow]
    exact ⟨subMonths_key_le 60 (by omega) maxD hv, le_refl _,
      by rintro (h | ⟨pair, h⟩) <;> exact Selector.noConfusion h⟩
  | allTime =>
    dsimp only [resolveWindow]
    exact ⟨hle, le_refl _, fun _ => le_refl _⟩
  | custom pair =>
    match pair with
    | [] =>
      dsimp only [resolveWindow]
      exact ⟨hle, le_refl _, fun _ => le_refl _⟩
    | [a] =>
      dsimp only [resolveWindow]
      exact ⟨hle, le_refl _, fun _ => le_refl _⟩
    | [a, b] =>
      obtain ⟨hma, hab, hbm⟩ := hc a b rfl
      dsimp only [resolveWindow]
      exact ⟨hab, hbm, fun _ => hma⟩
    | a :: b :: c :: rest =>
      dsimp only [resolveWindow]
      exact ⟨hle, le_refl _, fun _ => le_refl _⟩

/-- Closed instance of `resolveWindow_bounds` at the past-week selector. -/
theorem resolveWindow_bounds_witness :
    (resolveWindow Selector.pastWeek ⟨2024, 1, 1⟩ ⟨2024, 3, 15⟩).start.key ≤
      (resolveWindow Selector.pastWeek ⟨2024, 1, 1⟩ ⟨2024, 3, 15⟩).stop.key :=
  (resolveWindow_bounds Selector.pastWeek ⟨2024, 1, 1⟩ ⟨2024, 3, 15⟩
    (by decide) (by decide)
    (fun a b h => Selector.noConfusion h)).1

/-- C8: resolving the past-month selector anchored at 2024-03-31 yields
2024-02-29 — the last valid calendar day one calendar month earlier
(leap year), not `max_date` minus a fixed 30 days, which would land on
2024-03-01 instead. -/
theorem pastMonth_calendar_subtraction (minD : Date) :
    (resolveWindow Selector.pastMonth minD ⟨2024, 3, 31⟩).start = ⟨2024, 2, 29⟩ ∧
    subDays 30 ⟨2024, 3, 31⟩ ≠ (⟨2024, 2, 29⟩ : Date) := by
  constructor
  · show subMonths 1 ⟨2024, 3, 31⟩ = ⟨2024, 2, 29⟩
    decide
  · decide

/-- C9: a custom range with anything other than exactly two bounds makes
the resolver report an input error (`st.sidebar.error`) and fall back to
the full dataset range; the resolution is total, so no exception. -/
theorem custom_malformed_fallback (minD maxD : Date) (pair : List Date)
    (h : pair.length ≠ 2) :
    resolveWindow (Selector.custom pair) minD maxD = ⟨minD, maxD, true⟩ := by
  match pair with
  | [] => rfl
  | [a] => rfl
  | [a, b] => exact absurd rfl h
  | a :: b :: c :: rest => rfl

/-- Closed instance of `custom_malformed_fallback` on a one-element pair. -/
theorem custom_malformed_fallback_witness :
    resolveWindow (Selector.custom [⟨2024, 2, 1⟩]) ⟨2024, 1, 1⟩ ⟨2024, 3, 15⟩
      = ⟨⟨2024, 1, 1⟩, ⟨2024, 3, 15⟩, true⟩ :=
  custom_malformed_fallback ⟨2024, 1, 1⟩ ⟨2024, 3, 15⟩ [⟨2024, 2, 1⟩] (by decide)

/-- One row of `estat_ranking_merged.csv` after load-time typing,
restricted to the columns the verified aggregates read. -/
structure RankingRow where
  date : Date
  series_name : String
  field_major : Option String
  access_count : Int
deriving DecidableEq

/-- The period filter mask `(date >= start_date) & (date <= end_date)`,
inclusive on both ends. -/
def filterRows (rows : List RankingRow) (s e : Date) : List RankingRow :=
  rows.filter (fun r => decide (s.key ≤ r.date.key) && decide (r.date.key ≤ e.key))

/-- Sum of `access_count` (`filtered_df['access_count'].sum()`). -/
def accessSum (rows : List RankingRow) : Int :=
  (rows.map (fun r => r.access_count)).sum

/-- Index of the calendar-month bucket a date falls into. -/
def monthIdx (d : Date) : Int := d.year * 12 + (d.month : Int)

/-- Total access of the rows falling in month bucket `m`. -/
def monthlySum (rows : List RankingRow) (m : Int) : Int :=
  accessSum (rows.filter (fun r => monthIdx r.date == m))

/-- Smallest month bucket present among the rows (0 for an empty table,
where it is never used). -/
def loMonth : List RankingRow → Int
  | [] => 0
  | r :: t => (t.map (fun x => monthIdx x.date)).foldl min (monthIdx r.date)

/-- Largest month bucket present among the rows. -/
def hiMonth : List RankingRow → Int
  | [] => 0
  | r :: t => (t.map (fun x => monthIdx x.date)).foldl max (monthIdx r.date)

/-- `filtered_df.set_index('date').resample('ME')['access_count'].sum()`:
pandas emits one bin for every month-end frequency point between the
earliest and the latest index value, summing each bin (an empty bin sums
to 0). The bin is identified here by its month index. -/
def resampleME (rows : List RankingRow) : List (Int × Int) :=
  match rows with
  | [] => []
  | r :: t =>
    (List.range ((hiMonth (r :: t) - loMonth (r :: t)).toNat + 1)).map
      (fun (i : Nat) => (loMonth (r :: t) + (i : Int),
        monthlySum (r :: t) (loMonth (r :: t) + (i : Int))))

theorem foldl_min_le (xs : List Int) : ∀ x : Int, xs.foldl min x ≤ x := by
  induction xs with
  | nil => exact fun x => le_refl x
  | cons a t ih => exact fun x => le_trans (ih (min x a)) (min_le_left x a)

theorem le_foldl_max (xs : List Int) : ∀ x : Int, x ≤ xs.foldl max x := by
  induction xs with
  | nil => exact fun x => le_refl x
  | cons a t ih => exact fun x => le_trans (le_max_left x a) (ih (max x a))

theorem loMonth_le_hiMonth (r : RankingRow) (t : List RankingRow) :
    loMonth (r :: t) ≤ hiMonth (r :: t) :=
  le_trans (foldl_min_le _ _) (le_foldl_max _ _)

/-- C1 counterexample: a window-filtered table with rows only in 2024-01
and 2024-03 still yields a monthly point for 2024-02 (month bucket
`2024 * 12 + 2 = 24290`) with fabricated value 0, although no filtered
row falls in that month. -/
theorem resample_emits_zero_month_point :
    ((24290 : Int), (0 : Int)) ∈ resampleME (filterRows
        [⟨⟨2024, 1, 15⟩, "国勢調査", some "人口・世帯", 5⟩,
         ⟨⟨2024, 3, 10⟩, "家計調査", some "企業・家計・経済", 7⟩]
        ⟨2024, 1, 1⟩ ⟨2024, 12, 31⟩) ∧
    (filterRows
        [⟨⟨2024, 1, 15⟩, "国勢調査", some "人口・世帯", 5⟩,
         ⟨⟨2024, 3, 10⟩, "家計調査", some "企業・家計・経済", 7⟩]
        ⟨2024, 1, 1⟩ ⟨2024, 12, 31⟩).filter
      (fun r => monthIdx r.date == 24290) = [] := by
  decide

/-- C1 (amended): for a non-empty filtered table, the monthly aggregate
contains exactly the points `(m, monthlySum rows m)` for every month `m`
between the earliest and the latest month present — months inside this
span with no underlying rows receive an explicit zero-valued point
(`monthlySum rows m = 0` there), not a gap; no point lies outside the
span, and an empty table yields an empty series. -/
theorem resampleME_mem_iff (rows : List RankingRow) (h : rows ≠ []) (m v : Int) :
    (m, v) ∈ resampleME rows ↔
      loMonth rows ≤ m ∧ m ≤ hiMonth rows ∧ v = monthlySum rows m := by
  obtain ⟨r, t, rfl⟩ := List.exists_cons_of_ne_nil h
  have hlh : loMonth (r :: t) ≤ hiMonth (r :: t) := loMonth_le_hiMonth r t
  constructor
  · intro hm
    dsimp only [resampleME] at hm
    rcases List.mem_map.mp hm with ⟨i, hi, heq⟩
    have hilt := List.mem_range.mp hi
    rw [Prod.mk.injEq] at heq
    obtain ⟨h1, h2⟩ := heq
    subst h1
    subst h2
    refine ⟨by omega, by omega, rfl⟩
  · rintro ⟨h1, h2, rfl⟩
    dsimp only [resampleME]
    refine List.mem_map.mpr
      ⟨(m - loMonth (r :: t)).toNat, List.mem_range.mpr (by omega), ?_⟩
    have he : loMonth (r :: t) + ((m - loMonth (r :: t)).toNat : Int) = m := by omega
    rw [he]

/-- Closed instance of `resampleME_mem_iff` on a one-row table. -/
theorem resampleME_mem_iff_witness :
    ((24289 : Int), (5 : Int)) ∈ resampleME [⟨⟨2024, 1, 15⟩, "国勢調査", some "人口・世帯", 5⟩] :=
  (resampleME_mem_iff [⟨⟨2024, 1, 15⟩, "国勢調査", some "人口・世帯", 5⟩]
    (by decide) 24289 5).mpr ⟨by decide, by decide, by decide⟩

/-- Total access of the rows carrying grouping key `k`
(`groupby('field_major')` bucket sum). -/
def groupTotal (rows : List RankingRow) (k : String) : Int :=
  accessSum (rows.filter (fun r => r.field_major == some k))

/-- The distinct non-null grouping keys, as pandas `groupby` forms them:
rows whose key is missing (NaN) belong to no group. -/
def groupKeys (rows : List RankingRow) : List String :=
  (rows.filterMap (fun r => r.field_major)).dedup

/-- Sum of all per-group totals of
`filtered_df.groupby('field_major')['access_count'].sum()`. -/
def groupedSumTotal (rows : List RankingRow) : Int :=
  ((groupKeys rows).map (groupTotal rows)).sum

theorem sum_map_add_int {α : Type} (l : List α) (f g : α → Int) :
    (l.map (fun x => f x + g x)).sum = (l.map f).sum + (l.map g).sum := by
  induction l with
  | nil => simp
  | cons a t ih =>
    simp only [List.map_cons, List.sum_cons, ih]
    ring

theorem sum_if_not_mem (ks : List String) (k0 : String) (c : Int) (h : k0 ∉ ks) :
    (ks.map (fun k => if k0 = k then c else 0)).sum = 0 := by
  induction ks with
  | nil => rfl
  | cons a t ih =>
    have h1 : k0 ≠ a := fun e => h (by rw [e]; exact List.mem_cons_self a t)
    have h2 : k0 ∉ t := fun e => h (List.mem_cons_of_mem a e)
    simp only [List.map_cons, List.sum_cons, if_neg h1, ih h2, add_zero]

theorem sum_if_mem (ks : List String) (hnd : ks.Nodup) (k0 : String) (c : Int) :
    (ks.map (fun k => if k0 = k then c else 0)).sum = if k0 ∈ ks then c else 0 := by
  induction ks with
  | nil => simp
  | cons a t ih =>
    rcases List.nodup_cons.mp hnd with ⟨ha, ht⟩
    by_cases h : k0 = a
    · subst h
      simp only [List.map_cons, List.sum_cons, sum_if_not_mem t k0 c ha, add_zero]
      simp
    · have hmem : (k0 ∈ a :: t) = (k0 ∈ t) := by
        simp [List.mem_cons, h]
      simp only [List.map_cons, List.sum_cons, if_neg h, zero_add, ih ht, hmem]

theorem groupTotal_cons (r : RankingRow) (t : List RankingRow) (k : String) :
    groupTotal (r :: t) k
      = (if r.field_major = some k then r.access_count else 0) + groupTotal t k := by
  by_cases h : r.field_major = some k
  · simp [groupTotal, accessSum, List.filter_cons, h]
  · simp [groupTotal, accessSum, List.filter_cons, h]

/-- Bool predicate: the row's grouping key exists and lies in `ks`. -/
def keyInList (ks : List String) (r : RankingRow) : Bool :=
  match r.field_major with
  | some k => ks.contains k
  | none => false

theorem grouped_eq_keyed (ks : List String) (hnd : ks.Nodup) (rows : List RankingRow) :
    (ks.map (groupTotal rows)).sum = accessSum (rows.filter (keyInList ks)) := by
  induction rows with
  | nil =>
    have hz : ∀ l : List String, (l.map (groupTotal [])).sum = 0 := by
      intro l
      induction l with
      | nil => rfl
      | cons a t ih =>
        simp only [List.map_cons, List.sum_cons, ih, add_zero]
        rfl
    simpa using hz ks
  | cons r t ih =>
    have hfun : groupTotal (r :: t)
        = fun k => (if r.field_major = some k then r.access_count else 0) + groupTotal t k :=
      funext (groupTotal_cons r t)
    rw [hfun, sum_map_add_int, ih]
    rw [List.filter_cons]
    cases hfm : r.field_major with
    | none =>
      have hz : (ks.map (fun k => if (none : Option String) = some k
          then r.access_count else 0)).sum = 0 := by
        simp
      simp [keyInList, hfm, hz]
    | some k0 =>
      have hsum : (ks.map (fun k => if (some k0 : Option String) = some k
          then r.access_count else 0)).sum = if k0 ∈ ks then r.access_count else 0 := by
        simp only [Option.some.injEq]
        exact sum_if_mem ks hnd k0 r.access_count
      rw [hsum]
      by_cases hk : k0 ∈ ks
      · have hcont : keyInList ks r = true := by
          simp only [keyInList, hfm]
          exact List.elem_iff.mpr hk
        simp [hcont, hk, accessSum]
      · have hcont : keyInList ks r = false := by
          simp only [keyInList, hfm]
          cases hcc : ks.contains k0
          · rfl
          · exact absurd (List.elem_iff.mp hcc) hk
        simp [hcont, hk]

/-- C2 counterexample: a non-empty filtered table whose single row lacks a
`field_major` key has ungrouped total 3, yet the sum of the per-group
totals is 0 — pandas `groupby` silently drops rows whose grouping key is
missing, so grouping does drop rows. -/
theorem grouped_total_drops_null_key_row :
    accessSum (filterRows [⟨⟨2024, 1, 15⟩, "国勢調査", none, 3⟩]
        ⟨2024, 1, 1⟩ ⟨2024, 12, 31⟩) = 3 ∧
    groupedSumTotal (filterRows [⟨⟨2024, 1, 15⟩, "国勢調査", none, 3⟩]
        ⟨2024, 1, 1⟩ ⟨2024, 12, 31⟩) = 0 ∧
    filterRows [⟨⟨2024, 1, 15⟩, "国勢調査", none, 3⟩] ⟨2024, 1, 1⟩ ⟨2024, 12, 31⟩ ≠ [] := by
  decide

/-- C2 (amended): for every table, the sum of the per-group
`access_count` totals equals the ungrouped total of exactly those rows
whose grouping key is present (`groupby` excludes null-keyed rows from
every group); when every row carries a key this coincides with the full
ungrouped total. -/
theorem groupedSumTotal_eq_keyed_total (rows : List RankingRow) :
    groupedSumTotal rows = accessSum (rows.filter (fun r => r.field_major.isSome)) ∧
    ((∀ r ∈ rows, r.field_major.isSome) → groupedSumTotal rows = accessSum rows) := by
  have hmain : groupedSumTotal rows
      = accessSum (rows.filter (fun r => r.field_major.isSome)) := by
    have h := grouped_eq_keyed (groupKeys rows) (List.nodup_dedup _) rows
    rw [groupedSumTotal, h]
    congr 1
    apply List.filter_congr
    intro r hr
    cases hfm : r.field_major with
    | none => simp [keyInList, hfm]
    | some k =>
      have hk : k ∈ groupKeys rows :=
        List.mem_dedup.mpr (List.mem_filterMap.mpr ⟨r, hr, hfm⟩)
      simp only [keyInList, hfm, Option.isSome_some]
      exact List.elem_iff.mpr hk
  refine ⟨hmain, fun hall => ?_⟩
  rw [hmain, List.filter_eq_self.mpr ?_]
  intro r hr
  exact hall r hr

/-- Closed instance of `groupedSumTotal_eq_keyed_total` on a fully-keyed
table. -/
theorem groupedSumTotal_witness :
    groupedSumTotal [⟨⟨2024, 1, 15⟩, "国勢調査", some "人口・世帯", 5⟩,
        ⟨⟨2024, 2, 2⟩, "家計調査", some "企業・家計・経済", 7⟩]
      = accessSum [⟨⟨2024, 1, 15⟩, "国勢調査", some "人口・世帯", 5⟩,
        ⟨⟨2024, 2, 2⟩, "家計調査", some "企業・家計・経済", 7⟩] :=
  (groupedSumTotal_eq_keyed_total
    [⟨⟨2024, 1, 15⟩, "国勢調査", some "人口・世帯", 5⟩,
     ⟨⟨2024, 2, 2⟩, "家計調査", some "企業・家計・経済", 7⟩]).2 (by decide)

/-- The fixed 17-value vocabulary `custom_order` shared by all three
pages. -/
def customOrder : List String :=
  ["国土・気象", "人口・世帯", "労働・賃金", "農林水産業", "鉱工業",
   "商業・サービス業", "企業・家計・経済", "住宅・土地・建設",
   "エネルギー・水", "運輸・観光", "情報通信・科学技術",
   "教育・文化・スポーツ・生活", "行財政", "司法・安全・環境",
   "社会保障・衛生", "国際", "その他"]

/-- `[field for field in custom_order if field in fields_in_data]` —
the field display order of 全体概要.py lines 208-209 (`ordered_fields`)
and 統計シリーズ概要.py lines 65-66 (`sorted_fields`). -/
def orderedFields (fieldsInData : List String) : List String :=
  customOrder.filter (fun f => fieldsInData.contains f)

/-- C4 counterexample: a `field_major` value outside the 17-value
vocabulary that is present in the data never appears in the field-ordered
view: the comprehension iterates over the vocabulary only, so the unknown
value is silently removed, not appended after the vocabulary. -/
theorem orderedFields_drops_unknown_value :
    "独自分野" ∉ customOrder ∧
    orderedFields ["独自分野", "国際"] = ["国際"] ∧
    "独自分野" ∉ orderedFields ["独自分野", "国際"] := by
  decide

/-- C4 (amended): the field-ordered views display exactly the vocabulary
values that occur in the data, in vocabulary order; any value outside the
17-value vocabulary is silently removed from the ordered output rather
than being appended after it. -/
theorem orderedFields_mem_iff (fieldsInData : List String) (f : String) :
    f ∈ orderedFields fieldsInData ↔ f ∈ customOrder ∧ f ∈ fieldsInData := by
  simp only [orderedFields, List.mem_filter]
  constructor
  · rintro ⟨h1, h2⟩
    exact ⟨h1, List.elem_iff.mp h2⟩
  · rintro ⟨h1, h2⟩
    exact ⟨h1, List.elem_iff.mpr h2⟩

/-- A raw `access_count` cell of `estat_ranking_merged.csv` as seen by
`pd.to_numeric(..., errors='coerce')`: either a (possibly negative)
numeric value or a non-numeric/missing entry that coerces to NaN. -/
inductive SourceVal where
  | num (n : Int)
  | nonNum
deriving DecidableEq

/-- `pd.to_numeric(col, errors='coerce').fillna(0).astype(int)`:
non-numeric entries become NaN and then 0; numeric entries are kept
unchanged. -/
def coerceAccess : SourceVal → Int
  | .num n => n
  | .nonNum => 0

/-- The source value is non-negative or non-numeric. -/
def srcNonneg : SourceVal → Bool
  | .num n => decide (0 ≤ n)
  | .nonNum => true

/-- C5 counterexample: a negative numeric source value is preserved by
the load-time coercion, so a RankingRecord can carry a negative
`access_count`: negatives are not coerced to 0. -/
theorem coerceAccess_negative_preserved :
    coerceAccess (SourceVal.num (-5)) = -5 ∧ coerceAccess (SourceVal.num (-5)) < 0 := by
  decide

/-- C5 (amended): the coercion maps every non-numeric source value to 0,
and keeps numeric values unchanged; consequently all loaded
`access_count` values are non-negative exactly when the source contains
no negative numeric entry. -/
theorem coerceAccess_nonneg_of_sources (srcs : List SourceVal)
    (h : ∀ v ∈ srcs, srcNonneg v = true) :
    (∀ c ∈ srcs.map coerceAccess, 0 ≤ c) ∧ coerceAccess SourceVal.nonNum = 0 := by
  refine ⟨?_, rfl⟩
  intro c hc
  rcases List.mem_map.mp hc with ⟨v, hv, rfl⟩
  cases v with
  | num n => exact of_decide_eq_true (h _ hv)
  | nonNum => exact le_refl 0

/-- Closed instance of `coerceAccess_nonneg_of_sources`. -/
theorem coerceAccess_nonneg_witness :
    0 ≤ coerceAccess (SourceVal.num 2) :=
  (coerceAccess_nonneg_of_sources [SourceVal.num 2, SourceVal.nonNum]
    (by decide)).1 (coerceAccess (SourceVal.num 2)) (by decide)

/-- The `series_name` column of a ranking table. -/
def seriesNamesOf (rows : List RankingRow) : List String :=
  rows.map (fun r => r.series_name)

/-- 全体概要.py lines 193-194: `ranked_series_set = set(df['series_name'].unique())`
is built from the FULL table `df` (not `filtered_df`), and the unranked
catalog is `details_df[~details_df['series_name'].isin(ranked_series_set)]`. -/
def unrankedCatalogOverview (catalog : List String) (allRows : List RankingRow) : List String :=
  catalog.filter (fun n => !((allRows.map (fun r => r.series_name)).contains n))

/-- 分野別分析.py ランクイン状況 marking: a catalog series gets '○' iff its
name occurs among the `series_name` values of the given (window- and
field-filtered) ranking rows. -/
def rankedMark (filteredRows : List RankingRow) (n : String) : Bool :=
  (filteredRows.map (fun r => r.series_name)).contains n

/-- The catalog rows marked '○'. -/
def rankedPartition (catalog : List String) (filteredRows : List RankingRow) : List String :=
  catalog.filter (fun n => rankedMark filteredRows n)

/-- The catalog rows marked '×'. -/
def unrankedPartition (catalog : List String) (filteredRows : List RankingRow) : List String :=
  catalog.filter (fun n => !(rankedMark filteredRows n))

/-- C6 counterexample: a series whose only ranking row lies outside the
resolved window (June 2024) has no name in the window-filtered table, so
per the claim it should be unranked for that window; yet the overview
page's unranked table, built from the full unfiltered ranking table, is
empty — it classifies the series as ranked regardless of the window. -/
theorem overview_unranked_ignores_window :
    rankedMark (filterRows [⟨⟨2024, 1, 5⟩, "国勢調査", some "人口・世帯", 4⟩]
        ⟨2024, 6, 1⟩ ⟨2024, 6, 30⟩) "国勢調査" = false ∧
    unrankedCatalogOverview ["国勢調査"]
        [⟨⟨2024, 1, 5⟩, "国勢調査", some "人口・世帯", 4⟩] = [] := by
  decide

/-- C6 (amended): on the field-analysis page the ranked/unranked marking
of the catalog is determined by the window-filtered rows exactly as
claimed, and it is a disjoint cover of the catalog; the overview page's
unranked-series table, however, classifies against the full unfiltered
ranking table, so its partition is independent of the resolved window. -/
theorem partition_classification (catalog : List String) (rows : List RankingRow)
    (s e : Date) (n : String) (hn : n ∈ catalog) :
    (n ∈ rankedPartition catalog (filterRows rows s e) ↔
      n ∈ seriesNamesOf (filterRows rows s e)) ∧
    (n ∈ unrankedPartition catalog (filterRows rows s e) ↔
      ¬ n ∈ seriesNamesOf (filterRows rows s e)) ∧
    (¬ (n ∈ rankedPartition catalog (filterRows rows s e) ∧
        n ∈ unrankedPartition catalog (filterRows rows s e))) ∧
    (n ∈ rankedPartition catalog (filterRows rows s e) ∨
      n ∈ unrankedPartition catalog (filterRows rows s e)) ∧
    (n ∈ unrankedCatalogOverview catalog rows ↔ ¬ n ∈ seriesNamesOf rows) := by
  have hmark : ∀ l : List RankingRow, (rankedMark l n = true) ↔ n ∈ seriesNamesOf l :=
    fun l => List.elem_iff
  have hnmark : ∀ l : List RankingRow, ((!rankedMark l n) = true) ↔ ¬ n ∈ seriesNamesOf l := by
    intro l
    rw [← hmark l]
    cases rankedMark l n <;> simp
  have e1 : n ∈ rankedPartition catalog (filterRows rows s e) ↔
      rankedMark (filterRows rows s e) n = true := by
    rw [rankedPartition, List.mem_filter]
    exact ⟨fun h => h.2, fun h => ⟨hn, h⟩⟩
  have e2 : n ∈ unrankedPartition catalog (filterRows rows s e) ↔
      (!rankedMark (filterRows rows s e) n) = true := by
    rw [unrankedPartition, List.mem_filter]
    exact ⟨fun h => h.2, fun h => ⟨hn, h⟩⟩
  have e5 : n ∈ unrankedCatalogOverview catalog rows ↔ (!rankedMark rows n) = true := by
    rw [unrankedCatalogOverview, List.mem_filter]
    exact ⟨fun h => h.2, fun h => ⟨hn, h⟩⟩
  refine ⟨e1.trans (hmark _), e2.trans (hnmark _), ?_, ?_, e5.trans (hnmark _)⟩
  · rintro ⟨ha, hb⟩
    exact ((hnmark _).mp (e2.mp hb)) ((hmark _).mp (e1.mp ha))
  · by_cases hm : n ∈ seriesNamesOf (filterRows rows s e)
    · exact Or.inl (e1.mpr ((hmark _).mpr hm))
    · exact Or.inr (e2.mpr ((hnmark _).mpr hm))

/-- Closed instance of `partition_classification`: disjointness at a
concrete catalog, table and window. -/
theorem partition_classification_witness :
    ¬ ("国勢調査" ∈ rankedPartition ["国勢調査"]
          (filterRows [⟨⟨2024, 1, 5⟩, "国勢調査", some "人口・世帯", 4⟩]
            ⟨2024, 1, 1⟩ ⟨2024, 12, 31⟩) ∧
        "国勢調査" ∈ unrankedPartition ["国勢調査"]
          (filterRows [⟨⟨2024, 1, 5⟩, "国勢調査", some "人口・世帯", 4⟩]
            ⟨2024, 1, 1⟩ ⟨2024, 12, 31⟩)) :=
  (partition_classification ["国勢調査"] [⟨⟨2024, 1, 5⟩, "国勢調査", some "人口・世帯", 4⟩]
    ⟨2024, 1, 1⟩ ⟨2024, 12, 31⟩ "国勢調査" (by decide)).2.2.1

/-- A KPI metric value: either a plain count, or a count with a
percentage suffix computed as `num / den`. -/
inductive MetricText where
  | plain (n : Nat)
  | withPct (n : Nat) (num den : Nat)
deriving DecidableEq

/-- 分野別分析.py lines 224-229: the ranked KPI text, guarded by
`if total_series_in_major_count > 0`. -/
def fieldRankedText (ranked total : Nat) : MetricText :=
  if 0 < total then MetricText.withPct ranked ranked total else MetricText.plain ranked

/-- 分野別分析.py lines 224-229: the unranked KPI text under the same
guard. -/
def fieldUnrankedText (unranked total : Nat) : MetricText :=
  if 0 < total then MetricText.withPct unranked unranked total else MetricText.plain unranked

/-- 全体概要.py lines 101-105: the overview ranked KPI text, which always
formats `ranked_series_count / total_series_count` with no guard; `none`
models the ZeroDivisionError raised when the catalog total is 0. -/
def overviewRankedText (ranked total : Nat) : Option MetricText :=
  if total = 0 then none else some (MetricText.withPct ranked ranked total)

/-- C7 counterexample: with a zero catalog total, the overview page does
not emit a plain count — it performs the division unconditionally and
raises (modelled by `none`); only the field-analysis page falls back to
the plain count. -/
theorem overview_metric_divides_at_zero_total :
    overviewRankedText 0 0 = none ∧
    overviewRankedText 0 0 ≠ some (MetricText.plain 0) ∧
    fieldRankedText 0 0 = MetricText.plain 0 := by
  decide

/-- C7 (amended): the field-analysis page emits plain counts with no
percentage and performs no division when the total is 0, and emits
percentage-suffixed counts when the total is positive; the overview page
has no zero guard — it divides by the catalog total unconditionally, so
it produces a (percentage-suffixed) value only for a positive total and
fails on a zero total. -/
theorem metric_text_zero_guard (r u total : Nat) :
    (total = 0 → fieldRankedText r total = MetricText.plain r ∧
      fieldUnrankedText u total = MetricText.plain u ∧
      overviewRankedText r total = none) ∧
    (0 < total → fieldRankedText r total = MetricText.withPct r r total ∧
      fieldUnrankedText u total = MetricText.withPct u u total ∧
      overviewRankedText r total = some (MetricText.withPct r r total)) := by
  constructor
  · intro h
    subst h
    exact ⟨rfl, rfl, rfl⟩
  · intro h
    have h0 : ¬ total = 0 := by omega
    simp [fieldRankedText, fieldUnrankedText, overviewRankedText, h, h0]

/-- Closed instance of `metric_text_zero_guard` at total 0. -/
theorem metric_text_zero_guard_witness :
    fieldRankedText 5 0 = MetricText.plain 5 ∧
      fieldUnrankedText 3 0 = MetricText.plain 3 ∧
      overviewRankedText 5 0 = none :=
  (metric_text_zero_guard 5 3 0).1 rfl

/-- The Unicode hyphen U+2010 targeted by the load-time replacement. -/
def hyphenU2010 : Char := Char.ofNat 0x2010

/-- `series.str.replace('‐', '-', regex=False)` with the single-character
U+2010 pattern: every occurrence of that character is replaced by the
ASCII hyphen. -/
def normalizeName (s : String) : String :=
  String.mk (s.data.map (fun c => if c = hyphenU2010 then '-' else c))

/-- The transformation 全体概要.py `load_all_data` applies to the
`series_name` column of both the ranking table and the series catalog. -/
def overviewLoadNames (names : List String) : List String :=
  names.map normalizeName

/-- The transformation 分野別分析.py `load_data` applies to the
`series_name` column: none — its loader coerces counts and parses dates
but performs no string replacement. -/
def fieldLoadNames (names : List String) : List String :=
  names

/-- The two characters agree up to the U+2010 / ASCII hyphen variant. -/
def hyphenEquiv (c d : Char) : Bool :=
  c == d || ((c == '-' || c == hyphenU2010) && (d == '-' || d == hyphenU2010))

/-- The two strings agree character-wise up to the hyphen variant. -/
def sameUpToHyphen (a b : String) : Bool :=
  a.data.length == b.data.length && (a.data.zip b.data).all (fun p => hyphenEquiv p.1 p.2)

theorem hyphenFix_eq_of_equiv (c d : Char) (h : hyphenEquiv c d = true) :
    (if c = hyphenU2010 then '-' else c) = (if d = hyphenU2010 then '-' else d) := by
  simp only [hyphenEquiv, Bool.or_eq_true, Bool.and_eq_true, beq_iff_eq] at h
  rcases h with h | ⟨hc, hd⟩
  · subst h
    rfl
  · rcases hc with hc | hc <;> rcases hd with hd | hd <;> subst hc <;> subst hd <;> decide

theorem map_hyphenFix_eq (xs : List Char) : ∀ ys : List Char, xs.length = ys.length →
    ((xs.zip ys).all (fun p => hyphenEquiv p.1 p.2) = true) →
    xs.map (fun c => if c = hyphenU2010 then '-' else c)
      = ys.map (fun c => if c = hyphenU2010 then '-' else c) := by
  induction xs with
  | nil =>
    intro ys h _
    cases ys with
    | nil => rfl
    | cons b u => simp at h
  | cons a t ih =>
    intro ys h hall
    cases ys with
    | nil => simp at h
    | cons b u =>
      simp only [List.zip_cons_cons, List.all_cons, Bool.and_eq_true] at hall
      simp only [List.map_cons]
      rw [hyphenFix_eq_of_equiv a b hall.1, ih u (by simpa using h) hall.2]

/-- C10: the overview loader replaces every U+2010 in `series_name` with
the ASCII hyphen in both tables before any matching — no loaded name
contains U+2010, and any two names that differ only in that hyphen
variant become equal, so the ranked/unranked comparison is invariant
under it; the field-analysis loader applies no such normalization, its
series names pass through verbatim. -/
theorem hyphen_normalization (rankedNames detailNames : List String) :
    (∀ m ∈ overviewLoadNames rankedNames, ¬ hyphenU2010 ∈ m.data) ∧
    (∀ m ∈ overviewLoadNames detailNames, ¬ hyphenU2010 ∈ m.data) ∧
    (∀ a b : String, sameUpToHyphen a b = true → normalizeName a = normalizeName b) ∧
    fieldLoadNames rankedNames = rankedNames := by
  have hclean : ∀ names : List String, ∀ m ∈ overviewLoadNames names, ¬ hyphenU2010 ∈ m.data := by
    intro names m hm hmem
    rcases List.mem_map.mp hm with ⟨s, hs, rfl⟩
    have hmem' : hyphenU2010 ∈ s.data.map (fun c => if c = hyphenU2010 then '-' else c) := hmem
    rcases List.mem_map.mp hmem' with ⟨c, hc, heq⟩
    by_cases hcu : c = hyphenU2010
    · rw [if_pos hcu] at heq
      exact absurd heq (by decide)
    · rw [if_neg hcu] at heq
      exact hcu heq
  refine ⟨hclean rankedNames, hclean detailNames, ?_, rfl⟩
  intro a b h
  simp only [sameUpToHyphen, Bool.and_eq_true, beq_iff_eq] at h
  exact congrArg String.mk (map_hyphenFix_eq a.data b.data h.1 h.2)

/-- Closed instance of `hyphen_normalization`: two names differing only
in the hyphen variant normalize identically. -/
theorem hyphen_normalization_witness :
    normalizeName "労働力調査‐基本集計" = normalizeName "労働力調査-基本集計" :=
  (hyphen_normalization [] []).2.2.1 "労働力調査‐基本集計" "労働力調査-基本集計" (by decide)
